import Mathlib

set_option maxRecDepth 8000

/-!
Verification development for the AivisSpeech Discord reading bot.

The definitions below are a shallow embedding of the program's core:
the PCM framing layer (`BytesWavPCMSource`, `WavPCMSource` from
`main.py`), the per-guild playback queue (`guild_tts_manager` from
`src/guild_tts_manager.py`), the multi-backend synthesis race
(`generate_wav_bytes` from `main.py`), the reconnect backoff logic
(`restart_voice` from `main.py`) and the user voice-profile store
(`get_voice_for_user` from `main.py`).  Bytes are modelled as `List Nat`.
-/

/-- Samples per 20 ms packet at 48 kHz (`FRAME_SAMPLES = 960` in `main.py`). -/
def FRAME_SAMPLES : Nat := 960

/-- Output channel count (`CHANNELS = 2` in `main.py`). -/
def CHANNELS : Nat := 2

/-- Bytes per 16-bit sample (`BYTES_PER_SAMPLE = 2` in `main.py`). -/
def BYTES_PER_SAMPLE : Nat := 2

/-- Fixed output frame size in bytes: 960*2*2 = 3840 (`FRAME_BYTES` in `main.py`). -/
def FRAME_BYTES : Nat := FRAME_SAMPLES * CHANNELS * BYTES_PER_SAMPLE

/-- State of a `BytesWavPCMSource` after construction: the validated channel
count (1 or 2), the remaining undecoded PCM bytes of the WAV data chunk, and
the `_padded_last` flag.  The constructor checks 48 kHz / 16-bit / 1-2 ch;
those invariants appear as hypotheses of the theorems. -/
structure BytesWavPCMSource where
  channels : Nat
  data : List Nat
  padded_last : Bool
deriving Repr, DecidableEq

/-- The upmix loop of `BytesWavPCMSource.read`: for each 2-byte mono sample,
write it into both channel slots of the output
(`mv_out[4*i:4*i+2] = s; mv_out[4*i+2:4*i+4] = s` in `main.py`). -/
def upmix : List Nat → List Nat
  | a :: b :: rest => a :: b :: a :: b :: upmix rest
  | _ => []

/-- One call of `BytesWavPCMSource.read` (`main.py` lines 139-166), returning
the produced frame and the successor state.  `wave.readframes(FRAME_SAMPLES)`
is modelled as taking the next `FRAME_SAMPLES * channels * BYTES_PER_SAMPLE`
bytes of the remaining data. -/
def BytesWavPCMSource.read (s : BytesWavPCMSource) : List Nat × BytesWavPCMSource :=
  if s.padded_last then ([], s)
  else
    let fsize := FRAME_SAMPLES * s.channels * BYTES_PER_SAMPLE
    let raw := s.data.take fsize
    let rest := s.data.drop fsize
    if raw = [] then ([], { s with data := rest })
    else if s.channels = 2 then
      if raw.length < FRAME_BYTES then
        (raw ++ List.replicate (FRAME_BYTES - raw.length) 0,
         { s with data := rest, padded_last := true })
      else
        (raw, { s with data := rest })
    else
      if raw.length < FRAME_SAMPLES * BYTES_PER_SAMPLE then
        (upmix (raw ++ List.replicate (FRAME_SAMPLES * BYTES_PER_SAMPLE - raw.length) 0),
         { s with data := rest, padded_last := true })
      else
        (upmix raw, { s with data := rest })

/-- State of a `WavPCMSource` (file-backed, stereo-only) after construction:
remaining PCM bytes and the `_padded_last` flag. -/
structure WavPCMSource where
  data : List Nat
  padded_last : Bool
deriving Repr, DecidableEq

/-- One call of `WavPCMSource.read` (`main.py` lines 203-215). -/
def WavPCMSource.read (s : WavPCMSource) : List Nat × WavPCMSource :=
  if s.padded_last then ([], s)
  else
    let data := s.data.take FRAME_BYTES
    let rest := s.data.drop FRAME_BYTES
    if data = [] then ([], { s with data := rest })
    else if data.length < FRAME_BYTES then
      (data ++ List.replicate (FRAME_BYTES - data.length) 0,
       { s with data := rest, padded_last := true })
    else
      (data, { s with data := rest })

/-- State of a `BytesWavPCMSource` after `n` calls to `read`. -/
def readsB (s : BytesWavPCMSource) : Nat → BytesWavPCMSource
  | 0 => s
  | n + 1 => ((readsB s n).read).2

/-- Frame produced by the `(n+1)`-st call to `read` on a `BytesWavPCMSource`. -/
def outB (s : BytesWavPCMSource) (n : Nat) : List Nat :=
  ((readsB s n).read).1

/-- State of a `WavPCMSource` after `n` calls to `read`. -/
def readsW (s : WavPCMSource) : Nat → WavPCMSource
  | 0 => s
  | n + 1 => ((readsW s n).read).2

/-- Frame produced by the `(n+1)`-st call to `read` on a `WavPCMSource`. -/
def outW (s : WavPCMSource) (n : Nat) : List Nat :=
  ((readsW s n).read).1

/-- A `WavPCMSource` state viewed as the corresponding stereo
`BytesWavPCMSource` state. -/
def toB (w : WavPCMSource) : BytesWavPCMSource :=
  ⟨2, w.data, w.padded_last⟩

example :
    (BytesWavPCMSource.read ⟨2, [5, 6, 7, 8], false⟩).2.padded_last = true := by
  decide

example :
    (BytesWavPCMSource.read ⟨1, [5, 6], false⟩).2.padded_last = true := by
  decide

example : upmix [5, 6, 7, 8] = [5, 6, 5, 6, 7, 8, 7, 8] := by
  decide

/-- A playback entry as built by `build_audio_entry` / `build_audio_entry_from_bytes`
(`main.py`): an id standing for the audio source object, the optional
`file_path`, and the `delete_after_play` flag.  Entries that are a bare
`AudioSource` correspond to `file_path = none`, `delete_after_play = false`. -/
structure AudioEntry where
  id : Nat
  file_path : Option String
  delete_after_play : Bool
deriving Repr, DecidableEq

/-- State of one guild's playback pipeline: the transport's connection,
playing and paused flags, the item whose completion callback has not yet
fired, the queue (`queue_dict[guild.id]`), the number of `self.play` calls
posted to the event loop via `call_soon_threadsafe` but not yet run, and the
ids of the entries whose temp file `after_playing` has removed. -/
structure TtsState where
  connected : Bool
  paused : Bool
  playing : Option AudioEntry
  queue : List AudioEntry
  pendingPlay : Nat
  cleaned : List Nat
deriving Repr, DecidableEq

/-- `guild_tts_manager.play` (`src/guild_tts_manager.py` lines 38-107):
if the transport is disconnected the whole queue is discarded; if the queue
is empty or something is already playing or paused, do nothing; otherwise
pop the head item and hand it to `voice_client.play`. -/
def guild_tts_manager.play (s : TtsState) : TtsState :=
  if ¬ s.connected then { s with queue := [] }
  else
    match s.queue with
    | [] => s
    | item :: rest =>
      if s.playing.isSome ∨ s.paused then s
      else { s with queue := rest, playing := some item }

/-- `guild_tts_manager.enqueue` (`src/guild_tts_manager.py` lines 21-36):
return immediately when the transport is missing or disconnected; otherwise
append the entry and, when neither playing nor paused, start playback. -/
def guild_tts_manager.enqueue (s : TtsState) (item : AudioEntry) : TtsState :=
  if ¬ s.connected then s
  else
    let s1 : TtsState := { s with queue := s.queue ++ [item] }
    if (¬ s1.playing.isSome) ∧ (¬ s1.paused) then guild_tts_manager.play s1
    else s1

/-- The `after_playing` completion callback (`src/guild_tts_manager.py`
lines 80-103) fired for the currently playing entry: log the error (no state
effect), delete the temp file when `delete_after_play` is set and a path is
present, then either discard the queue (transport gone) or post `play` to the
event loop.  The `err` argument is only printed by the source, so both the
success and the transport-error path behave identically. -/
def guild_tts_manager.after_playing (s : TtsState) (err : Bool) : TtsState :=
  match s.playing with
  | none => s
  | some item =>
    let s1 : TtsState :=
      { s with
        playing := none
        cleaned :=
          if item.delete_after_play ∧ item.file_path.isSome then s.cleaned ++ [item.id]
          else s.cleaned }
    if ¬ s1.connected then { s1 with queue := [] }
    else { s1 with pendingPlay := s1.pendingPlay + 1 }

/-- External events driving one guild's playback pipeline. -/
inductive TtsEv where
  | enqueue (item : AudioEntry)
  | complete (err : Bool)
  | disconnect
  | connect
  | pause
  | resume
  | runScheduled
deriving Repr, DecidableEq

/-- One event step of the playback pipeline. -/
def TtsState.step (s : TtsState) : TtsEv → TtsState
  | .enqueue item => guild_tts_manager.enqueue s item
  | .complete err => guild_tts_manager.after_playing s err
  | .disconnect => { s with connected := false }
  | .connect => { s with connected := true }
  | .pause => { s with paused := true }
  | .resume => { s with paused := false }
  | .runScheduled =>
    match s.pendingPlay with
    | 0 => s
    | n + 1 => guild_tts_manager.play { s with pendingPlay := n }

/-- Run a list of events from a state. -/
def TtsState.run (s : TtsState) : List TtsEv → TtsState
  | [] => s
  | e :: es => TtsState.run (s.step e) es

/-- Initial pipeline state: connected, idle, empty queue. -/
def ttsInit : TtsState :=
  ⟨true, false, none, [], 0, []⟩

/-- Outcome of one backend request of the synthesis race, as observed at the
moment the task completes: either the HTTP exchange failed (`failed`), or it
produced WAV bytes whose header decodes to the given sample rate, channel
count and sample width. -/
structure SynthOutcome where
  failed : Bool
  sr : Nat
  ch : Nat
  sw : Nat
  bytes : List Nat
deriving Repr, DecidableEq

/-- `generate_wav_bytes_from_server` (`main.py` lines 273-309): any exception
(network failure or the `ValueError` raised when the WAV is not 48 kHz,
16-bit, 1- or 2-channel) is caught and turned into `None`; otherwise the raw
bytes are returned. -/
def generate_wav_bytes_from_server (o : SynthOutcome) : Option (List Nat) :=
  if o.failed then none
  else if o.sr ≠ 48000 ∨ o.sw ≠ 2 ∨ (o.ch ≠ 1 ∧ o.ch ≠ 2) then none
  else some o.bytes

/-- The winner-selection loop of `generate_wav_bytes` (`main.py` lines
320-327) over the per-task results in completion order: skip falsy results
(`None` or empty bytes), stop at the first truthy one. -/
def raceLoop : List (Option (List Nat)) → Option (List Nat)
  | [] => none
  | none :: rest => raceLoop rest
  | some b :: rest => if b = [] then raceLoop rest else some b

/-- `generate_wav_bytes` (`main.py` lines 311-334).  `completions` lists the
backend outcomes in the order `asyncio.as_completed` yields them, restricted
to those that complete before `FIRST_REPLY_TIMEOUT`; `timedOut` is true when
the timeout fires before all tasks have been consumed (the `except
asyncio.TimeoutError` branch, which sets `winner = None`).  The `finally`
block cancels the still-pending tasks without awaiting them, so entries after
the winner are never examined. -/
def generate_wav_bytes (completions : List SynthOutcome) (timedOut : Bool) :
    Option (List Nat) :=
  if timedOut then none
  else raceLoop (completions.map generate_wav_bytes_from_server)

/-- `restart_voice` backoff computation (`main.py` lines 506-508): read the
step, the delay is `min(1 * 2 ** step, 30)` seconds and the stored step
becomes `min(step + 1, 5)`. -/
def restart_voice_backoff (step : Nat) : Nat × Nat :=
  (min (1 * 2 ^ step) 30, min (step + 1) 5)

/-- Delays produced by `n` consecutive reconnect attempts starting from a
given stored backoff step, with no cooldown reset in between. -/
def delaySeq (step : Nat) : Nat → List Nat
  | 0 => []
  | n + 1 =>
    (restart_voice_backoff step).1 :: delaySeq (restart_voice_backoff step).2 n

/-- Per-guild backoff bookkeeping of `restart_voice`: the stored step
(`_backoff_state[guild.id]`) and the absolute firing times of the pending
`_cooldown` tasks, each spawned unconditionally in the `finally` block
(`main.py` lines 532-536) to set the step back to 0 after 120 s. -/
structure BackoffSt where
  step : Nat
  cooldowns : List Nat
deriving Repr, DecidableEq

/-- Advance the event loop to time `now`: every due `_cooldown` task fires,
each setting the stored step to 0; fired tasks disappear. -/
def fireDue (now : Nat) (s : BackoffSt) : BackoffSt :=
  { step := if s.cooldowns.any (fun c => decide (c ≤ now)) then 0 else s.step
    cooldowns := s.cooldowns.filter (fun c => decide (now < c)) }

/-- One `restart_voice` attempt at time `t`: first the loop runs every
cooldown task due by `t`, then the attempt reads the step, computes the
delay, stores `min(step+1, 5)` and schedules a new cooldown at `t + 120`.
Returns the delay used and the successor state. -/
def attemptStep (t : Nat) (s : BackoffSt) : Nat × BackoffSt :=
  let s1 := fireDue t s
  ((restart_voice_backoff s1.step).1,
   { step := (restart_voice_backoff s1.step).2
     cooldowns := s1.cooldowns ++ [t + 120] })

/-- Delays of a sequence of reconnect attempts at the given (nondecreasing)
times. -/
def runAttempts (s : BackoffSt) : List Nat → List Nat
  | [] => []
  | t :: ts => (attemptStep t s).1 :: runAttempts (attemptStep t s).2 ts

/-- Fresh backoff state: step 0, no pending cooldown tasks. -/
def backoffInit : BackoffSt := ⟨0, []⟩

/-- A value of the on-disk `voice_mapping.yaml` map: either a legacy bare
integer voice id, or the structured `{voice_id, display_name}` record. -/
inductive VoiceRecord where
  | legacy (voiceId : Nat)
  | structured (voiceId : Nat) (displayName : String)
deriving Repr, DecidableEq

/-- The in-memory voice-profile store: `user_voice_mapping` as an ordered
association list, plus the `_save_pending` debounce flag. -/
structure VoiceStore where
  mapping : List (Nat × VoiceRecord)
  save_pending : Bool
deriving Repr, DecidableEq

/-- Python dict assignment `user_voice_mapping[user_id] = rec`: replace the
record in place when the key exists, append otherwise. -/
def setUser : List (Nat × VoiceRecord) → Nat → VoiceRecord → List (Nat × VoiceRecord)
  | [], uid, r => [(uid, r)]
  | (k, v) :: rest, uid, r =>
    if k = uid then (uid, r) :: rest else (k, v) :: setUser rest uid r

/-- `save_voice_mapping_debounced` (`main.py` lines 55-74): if a flush is
already pending, return; otherwise mark a flush as pending (the actual disk
write happens 0.8 s later). -/
def save_voice_mapping_debounced (s : VoiceStore) : VoiceStore :=
  if s.save_pending then s else { s with save_pending := true }

/-- `get_voice_for_user` (`main.py` lines 81-93).  `randVoice` stands for the
value of `get_random_voice_id()` used when the user has no record.  A
structured record answers its `voice_id`; a legacy bare-integer record is
answered as-is and upgraded in place to the structured form with a debounced
save; a missing record is assigned the random voice. -/
def get_voice_for_user (st : VoiceStore) (user_id : Nat) (display_name : String)
    (randVoice : Nat) : Nat × VoiceStore :=
  match List.lookup user_id st.mapping with
  | some (VoiceRecord.structured vid _) => (vid, st)
  | some (VoiceRecord.legacy n) =>
    (n, save_voice_mapping_debounced
      { st with mapping := setUser st.mapping user_id (VoiceRecord.structured n display_name) })
  | none =>
    (randVoice, save_voice_mapping_debounced
      { st with mapping := setUser st.mapping user_id (VoiceRecord.structured randVoice display_name) })

theorem upmix_length (n : Nat) : ∀ l : List Nat, l.length = 2 * n →
    (upmix l).length = 4 * n := by
  induction n with
  | zero =>
    intro l hl
    have hl0 : l = [] := List.eq_nil_of_length_eq_zero (by omega)
    subst hl0
    rfl
  | succ n ih =>
    intro l hl
    cases l with
    | nil => simp at hl
    | cons a l1 =>
      cases l1 with
      | nil => simp at hl; omega
      | cons b t =>
        have ht : t.length = 2 * n := by
          simp [List.length_cons] at hl
          omega
        have hsh : upmix (a :: b :: t) = a :: b :: a :: b :: upmix t := rfl
        rw [hsh]
        simp [List.length_cons, ih t ht]
        omega

theorem upmix_ne_nil (l : List Nat) (h : 2 ≤ l.length) : upmix l ≠ [] := by
  cases l with
  | nil => simp at h
  | cons a l1 =>
    cases l1 with
    | nil => simp at h
    | cons b t =>
      have hsh : upmix (a :: b :: t) = a :: b :: a :: b :: upmix t := rfl
      rw [hsh]
      simp

theorem upmix_append (n : Nat) : ∀ l1 l2 : List Nat, l1.length = 2 * n →
    upmix (l1 ++ l2) = upmix l1 ++ upmix l2 := by
  induction n with
  | zero =>
    intro l1 l2 h
    have h0 : l1 = [] := List.eq_nil_of_length_eq_zero (by omega)
    subst h0
    simp [upmix]
  | succ n ih =>
    intro l1 l2 h
    cases l1 with
    | nil => simp at h
    | cons a m1 =>
      cases m1 with
      | nil => simp at h; omega
      | cons b t =>
        have ht : t.length = 2 * n := by
          simp [List.length_cons] at h
          omega
        have h1 : upmix (a :: b :: (t ++ l2)) = a :: b :: a :: b :: upmix (t ++ l2) := rfl
        have h2 : upmix (a :: b :: t) = a :: b :: a :: b :: upmix t := rfl
        simp only [List.cons_append, h1, h2, ih t l2 ht]

theorem upmix_replicate (k : Nat) :
    upmix (List.replicate (2 * k) 0) = List.replicate (4 * k) 0 := by
  induction k with
  | zero => rfl
  | succ k ih =>
    have h2 : 2 * (k + 1) = (2 * k) + 1 + 1 := by ring
    have h4 : 4 * (k + 1) = (4 * k) + 1 + 1 + 1 + 1 := by ring
    rw [h2, h4]
    rw [List.replicate_succ, List.replicate_succ, List.replicate_succ,
      List.replicate_succ, List.replicate_succ, List.replicate_succ]
    have hsh : upmix (0 :: 0 :: List.replicate (2 * k) 0) =
        0 :: 0 :: 0 :: 0 :: upmix (List.replicate (2 * k) 0) := rfl
    rw [hsh, ih]

theorem getD_take (l : List Nat) : ∀ n m : Nat, m < n →
    (l.take n).getD m 0 = l.getD m 0 := by
  induction l with
  | nil => intro n m h; simp
  | cons a t ih =>
    intro n m h
    cases n with
    | zero => omega
    | succ n =>
      cases m with
      | zero => rfl
      | succ m =>
        simp only [List.take_succ_cons, List.getD_cons_succ]
        exact ih n m (by omega)

theorem upmix_getD : ∀ (i : Nat) (l : List Nat), 2 * i + 1 < l.length →
    (upmix l).getD (4 * i) 0 = l.getD (2 * i) 0 ∧
    (upmix l).getD (4 * i + 1) 0 = l.getD (2 * i + 1) 0 ∧
    (upmix l).getD (4 * i + 2) 0 = l.getD (2 * i) 0 ∧
    (upmix l).getD (4 * i + 3) 0 = l.getD (2 * i + 1) 0 := by
  intro i
  induction i with
  | zero =>
    intro l h
    cases l with
    | nil => simp at h
    | cons a t =>
      cases t with
      | nil => simp at h
      | cons b t2 =>
        exact ⟨rfl, rfl, rfl, rfl⟩
  | succ i ih =>
    intro l h
    cases l with
    | nil => simp at h
    | cons a t =>
      cases t with
      | nil => simp at h
      | cons b t2 =>
        have hb : 2 * i + 1 < t2.length := by
          simp [List.length_cons] at h
          omega
        obtain ⟨g0, g1, g2, g3⟩ := ih t2 hb
        have hsh : upmix (a :: b :: t2) = a :: b :: a :: b :: upmix t2 := rfl
        rw [hsh]
        have i4 : 4 * (i + 1) = (((4 * i + 1) + 1) + 1) + 1 := by ring
        have i2 : 2 * (i + 1) = (2 * i + 1) + 1 := by ring
        rw [i4, i2]
        simp only [List.getD_cons_succ]
        exact ⟨g0, g1, g2, g3⟩

theorem read_eval_two (d : List Nat) :
    BytesWavPCMSource.read ⟨2, d, false⟩ =
      (if d.take 3840 = [] then ([], ⟨2, d.drop 3840, false⟩)
       else if (d.take 3840).length < 3840 then
         (d.take 3840 ++ List.replicate (3840 - (d.take 3840).length) 0,
          ⟨2, d.drop 3840, true⟩)
       else (d.take 3840, ⟨2, d.drop 3840, false⟩)) := rfl

theorem read_eval_one (d : List Nat) :
    BytesWavPCMSource.read ⟨1, d, false⟩ =
      (if d.take 1920 = [] then ([], ⟨1, d.drop 1920, false⟩)
       else if (d.take 1920).length < 1920 then
         (upmix (d.take 1920 ++ List.replicate (1920 - (d.take 1920).length) 0),
          ⟨1, d.drop 1920, true⟩)
       else (upmix (d.take 1920), ⟨1, d.drop 1920, false⟩)) := rfl

theorem read_padded (ch : Nat) (d : List Nat) :
    BytesWavPCMSource.read ⟨ch, d, true⟩ = ([], ⟨ch, d, true⟩) := rfl

theorem wav_eval (d : List Nat) :
    WavPCMSource.read ⟨d, false⟩ =
      (if d.take 3840 = [] then ([], ⟨d.drop 3840, false⟩)
       else if (d.take 3840).length < 3840 then
         (d.take 3840 ++ List.replicate (3840 - (d.take 3840).length) 0,
          ⟨d.drop 3840, true⟩)
       else (d.take 3840, ⟨d.drop 3840, false⟩)) := rfl

theorem wav_padded (d : List Nat) :
    WavPCMSource.read ⟨d, true⟩ = ([], ⟨d, true⟩) := rfl

theorem read_full_two (d : List Nat) (hlen : 3840 ≤ d.length) :
    BytesWavPCMSource.read ⟨2, d, false⟩ = (d.take 3840, ⟨2, d.drop 3840, false⟩) := by
  rw [read_eval_two]
  have hne : d.take 3840 ≠ [] := by
    intro hnil
    rcases List.take_eq_nil_iff.mp hnil with hd | hd
    · omega
    · subst hd
      simp at hlen
  have hl : (d.take 3840).length = 3840 := by
    rw [List.length_take]
    exact min_eq_left hlen
  rw [if_neg hne, if_neg (by omega : ¬ (d.take 3840).length < 3840)]

theorem read_full_one (d : List Nat) (hlen : 1920 ≤ d.length) :
    BytesWavPCMSource.read ⟨1, d, false⟩ =
      (upmix (d.take 1920), ⟨1, d.drop 1920, false⟩) := by
  rw [read_eval_one]
  have hne : d.take 1920 ≠ [] := by
    intro hnil
    rcases List.take_eq_nil_iff.mp hnil with hd | hd
    · omega
    · subst hd
      simp at hlen
  have hl : (d.take 1920).length = 1920 := by
    rw [List.length_take]
    exact min_eq_left hlen
  rw [if_neg hne, if_neg (by omega : ¬ (d.take 1920).length < 1920)]

theorem read_partial_two (d : List Nat) (h0 : d ≠ []) (hlt : d.length < 3840) :
    BytesWavPCMSource.read ⟨2, d, false⟩ =
      (d ++ List.replicate (3840 - d.length) 0, ⟨2, [], true⟩) := by
  have htake : d.take 3840 = d := List.take_of_length_le (by omega)
  have hdrop : d.drop 3840 = [] := List.drop_eq_nil_of_le (by omega)
  rw [read_eval_two, htake, hdrop, if_neg h0, if_pos hlt]

theorem read_partial_one (d : List Nat) (h0 : d ≠ []) (hlt : d.length < 1920) :
    BytesWavPCMSource.read ⟨1, d, false⟩ =
      (upmix (d ++ List.replicate (1920 - d.length) 0), ⟨1, [], true⟩) := by
  have htake : d.take 1920 = d := List.take_of_length_le (by omega)
  have hdrop : d.drop 1920 = [] := List.drop_eq_nil_of_le (by omega)
  rw [read_eval_one, htake, hdrop, if_neg h0, if_pos hlt]

theorem read_fixpoint (x : BytesWavPCMSource) (hx : x.read = ([], x)) :
    ∀ j, readsB x j = x := by
  intro j
  induction j with
  | zero => rfl
  | succ j ih => rw [readsB, ih, hx]

theorem readsB_add (s : BytesWavPCMSource) (a : Nat) :
    ∀ b, readsB s (a + b) = readsB (readsB s a) b := by
  intro b
  induction b with
  | zero => rfl
  | succ b ih =>
    show readsB s ((a + b) + 1) = (readsB (readsB s a) b).read.2
    rw [readsB, ih]

theorem read_end_fix (s : BytesWavPCMSource)
    (hch : s.channels = 1 ∨ s.channels = 2) (h : (s.read).1 = []) :
    (s.read).2.read = ([], (s.read).2) := by
  obtain ⟨ch, d, p⟩ := s
  simp only at hch
  cases p with
  | true =>
    rw [read_padded]
    exact read_padded ch d
  | false =>
    rcases hch with h1 | h2
    · subst h1
      rw [read_eval_one] at h ⊢
      by_cases ht : d.take 1920 = []
      · have hd : d = [] := (List.take_eq_nil_iff.mp ht).resolve_left (by omega)
        subst hd
        rw [if_pos ht]
        have e : BytesWavPCMSource.read ⟨1, ([] : List Nat).drop 1920, false⟩ =
            ([], ⟨1, ([] : List Nat).drop 1920, false⟩) := rfl
        exact e
      · exfalso
        have hpos : 0 < (d.take 1920).length := List.length_pos.mpr ht
        rw [if_neg ht] at h
        by_cases hl : (d.take 1920).length < 1920
        · rw [if_pos hl] at h
          exact upmix_ne_nil _ (by
            rw [List.length_append, List.length_replicate]
            omega) h
        · rw [if_neg hl] at h
          exact upmix_ne_nil _ (by omega) h
    · subst h2
      rw [read_eval_two] at h ⊢
      by_cases ht : d.take 3840 = []
      · have hd : d = [] := (List.take_eq_nil_iff.mp ht).resolve_left (by omega)
        subst hd
        rw [if_pos ht]
        have e : BytesWavPCMSource.read ⟨2, ([] : List Nat).drop 3840, false⟩ =
            ([], ⟨2, ([] : List Nat).drop 3840, false⟩) := rfl
        exact e
      · exfalso
        rw [if_neg ht] at h
        by_cases hl : (d.take 3840).length < 3840
        · rw [if_pos hl] at h
          have : d.take 3840 = [] ∧ List.replicate (3840 - (d.take 3840).length) (0 : Nat) = [] :=
            List.append_eq_nil.mp h
          exact ht this.1
        · rw [if_neg hl] at h
          exact ht h

theorem read_channels (s : BytesWavPCMSource) : (s.read).2.channels = s.channels := by
  unfold BytesWavPCMSource.read
  split
  · rfl
  · dsimp only
    split
    · rfl
    · split
      · split <;> rfl
      · split <;> rfl

theorem readsB_channels (s : BytesWavPCMSource) :
    ∀ n, (readsB s n).channels = s.channels := by
  intro n
  induction n with
  | zero => rfl
  | succ n ih =>
    show ((readsB s n).read).2.channels = s.channels
    rw [read_channels, ih]

theorem read_toB (w : WavPCMSource) :
    (w.read).1 = ((toB w).read).1 ∧ toB (w.read).2 = ((toB w).read).2 := by
  obtain ⟨d, p⟩ := w
  cases p with
  | false =>
    have htB : toB ⟨d, false⟩ = ⟨2, d, false⟩ := rfl
    rw [htB, wav_eval, read_eval_two]
    by_cases ht : d.take 3840 = []
    · rw [if_pos ht, if_pos ht]
      exact ⟨rfl, rfl⟩
    · rw [if_neg ht, if_neg ht]
      by_cases hl : (d.take 3840).length < 3840
      · rw [if_pos hl, if_pos hl]
        exact ⟨rfl, rfl⟩
      · rw [if_neg hl, if_neg hl]
        exact ⟨rfl, rfl⟩
  | true => exact ⟨rfl, rfl⟩

theorem readsW_toB (w : WavPCMSource) :
    ∀ n, toB (readsW w n) = readsB (toB w) n ∧ outW w n = outB (toB w) n := by
  intro n
  induction n with
  | zero =>
    refine ⟨rfl, ?_⟩
    show (readsW w 0).read.1 = (readsB (toB w) 0).read.1
    exact (read_toB w).1
  | succ n ih =>
    have h2 : toB (readsW w (n + 1)) = readsB (toB w) (n + 1) := by
      show toB ((readsW w n).read).2 = ((readsB (toB w) n).read).2
      rw [← ih.1]
      exact (read_toB (readsW w n)).2
    refine ⟨h2, ?_⟩
    show ((readsW w (n + 1)).read).1 = ((readsB (toB w) (n + 1)).read).1
    rw [← h2]
    exact (read_toB (readsW w (n + 1))).1

theorem readsB_data_two (d : List Nat) (N r : Nat)
    (hlen : d.length = N * 3840 + r) :
    ∀ i, i ≤ N → readsB ⟨2, d, false⟩ i = ⟨2, d.drop (i * 3840), false⟩ := by
  intro i
  induction i with
  | zero =>
    intro _
    show (⟨2, d, false⟩ : BytesWavPCMSource) = ⟨2, d.drop 0, false⟩
    rw [List.drop_zero]
  | succ i ih =>
    intro hiN
    show ((readsB ⟨2, d, false⟩ i).read).2 = _
    rw [ih (by omega)]
    have hfull : 3840 ≤ (d.drop (i * 3840)).length := by
      rw [List.length_drop]
      omega
    rw [read_full_two _ hfull]
    show (⟨2, (d.drop (i * 3840)).drop 3840, false⟩ : BytesWavPCMSource) = _
    rw [List.drop_drop]
    have harith : i * 3840 + 3840 = (i + 1) * 3840 := by ring
    rw [harith]

theorem readsB_data_one (d : List Nat) (N r : Nat)
    (hlen : d.length = N * 1920 + r) :
    ∀ i, i ≤ N → readsB ⟨1, d, false⟩ i = ⟨1, d.drop (i * 1920), false⟩ := by
  intro i
  induction i with
  | zero =>
    intro _
    show (⟨1, d, false⟩ : BytesWavPCMSource) = ⟨1, d.drop 0, false⟩
    rw [List.drop_zero]
  | succ i ih =>
    intro hiN
    show ((readsB ⟨1, d, false⟩ i).read).2 = _
    rw [ih (by omega)]
    have hfull : 1920 ≤ (d.drop (i * 1920)).length := by
      rw [List.length_drop]
      omega
    rw [read_full_one _ hfull]
    show (⟨1, (d.drop (i * 1920)).drop 1920, false⟩ : BytesWavPCMSource) = _
    rw [List.drop_drop]
    have harith : i * 1920 + 1920 = (i + 1) * 1920 := by ring
    rw [harith]

theorem outB_frames (s : BytesWavPCMSource) (N r : Nat)
    (hch : s.channels = 1 ∨ s.channels = 2) (hp : s.padded_last = false)
    (hlen : s.data.length = N * (FRAME_SAMPLES * s.channels * BYTES_PER_SAMPLE) + r)
    (hr : 0 < r) (hrlt : r < FRAME_SAMPLES * s.channels * BYTES_PER_SAMPLE)
    (hdvd : 2 * s.channels ∣ r) :
    (∀ i, i ≤ N → (outB s i).length = FRAME_BYTES) ∧
    (outB s N).drop (r / (2 * s.channels) * 4) =
      List.replicate (FRAME_BYTES - r / (2 * s.channels) * 4) 0 ∧
    (∀ i, N < i → outB s i = []) := by
  obtain ⟨ch, d, p⟩ := s
  dsimp only at hch hp hlen hrlt hdvd ⊢
  subst hp
  have hFB : FRAME_BYTES = 3840 := rfl
  rcases hch with h | h <;> subst h
  · -- mono source
    have hfs : FRAME_SAMPLES * 1 * BYTES_PER_SAMPLE = 1920 := rfl
    rw [hfs] at hlen hrlt
    have h21 : 2 * 1 = 2 := rfl
    rw [h21] at hdvd
    obtain ⟨m, hm⟩ := hdvd
    have hN : readsB ⟨1, d, false⟩ N = ⟨1, d.drop (N * 1920), false⟩ :=
      readsB_data_one d N r hlen N le_rfl
    have hlr : (d.drop (N * 1920)).length = r := by
      rw [List.length_drop]
      omega
    have hne : d.drop (N * 1920) ≠ [] := by
      intro hd
      rw [hd] at hlr
      simp at hlr
      omega
    have hplt : (d.drop (N * 1920)).length < 1920 := by omega
    have hpart := read_partial_one (d.drop (N * 1920)) hne hplt
    refine ⟨?_, ?_, ?_⟩
    · intro i hi
      by_cases hiN : i = N
      · subst hiN
        show ((readsB ⟨1, d, false⟩ i).read).1.length = FRAME_BYTES
        rw [hN, hpart, hFB]
        have harg : ((d.drop (i * 1920)) ++
            List.replicate (1920 - (d.drop (i * 1920)).length) 0).length = 2 * 960 := by
          rw [List.length_append, List.length_replicate]
          omega
        exact (upmix_length 960 _ harg).trans (by norm_num)
      · have hi2 : readsB ⟨1, d, false⟩ i = ⟨1, d.drop (i * 1920), false⟩ :=
          readsB_data_one d N r hlen i hi
        have hfull : 1920 ≤ (d.drop (i * 1920)).length := by
          rw [List.length_drop]
          omega
        show ((readsB ⟨1, d, false⟩ i).read).1.length = FRAME_BYTES
        rw [hi2, read_full_one _ hfull, hFB]
        exact (upmix_length 960 _ (by rw [List.length_take, min_eq_left hfull])).trans
          (by norm_num)
    · show ((readsB ⟨1, d, false⟩ N).read).1.drop (r / (2 * 1) * 4) =
        List.replicate (FRAME_BYTES - r / (2 * 1) * 4) 0
      rw [h21, hFB, hN, hpart]
      have hdm : r / 2 = m := by omega
      rw [hdm, hlr]
      rw [upmix_append m _ _ (by rw [hlr, hm])]
      rw [show 1920 - r = 2 * (960 - m) from by omega, upmix_replicate]
      have hul : (upmix (d.drop (N * 1920))).length = 4 * m :=
        upmix_length m _ (by rw [hlr, hm])
      rw [show m * 4 = (upmix (d.drop (N * 1920))).length from by rw [hul]; ring]
      rw [List.drop_left, hul]
      congr 1
      omega
    · intro i hi
      have hN1 : readsB ⟨1, d, false⟩ (N + 1) = ⟨1, [], true⟩ := by
        show ((readsB ⟨1, d, false⟩ N).read).2 = ⟨1, [], true⟩
        rw [hN, hpart]
      have hfix : BytesWavPCMSource.read ⟨1, [], true⟩ = ([], ⟨1, [], true⟩) :=
        read_padded 1 []
      show ((readsB ⟨1, d, false⟩ i).read).1 = []
      have hdecomp : i = (N + 1) + (i - (N + 1)) := by omega
      rw [hdecomp, readsB_add, hN1, read_fixpoint _ hfix, hfix]
  · -- stereo source
    have hfs : FRAME_SAMPLES * 2 * BYTES_PER_SAMPLE = 3840 := rfl
    rw [hfs] at hlen hrlt
    have h22 : 2 * 2 = 4 := rfl
    rw [h22] at hdvd
    have hN : readsB ⟨2, d, false⟩ N = ⟨2, d.drop (N * 3840), false⟩ :=
      readsB_data_two d N r hlen N le_rfl
    have hlr : (d.drop (N * 3840)).length = r := by
      rw [List.length_drop]
      omega
    have hne : d.drop (N * 3840) ≠ [] := by
      intro hd
      rw [hd] at hlr
      simp at hlr
      omega
    have hplt : (d.drop (N * 3840)).length < 3840 := by omega
    have hpart := read_partial_two (d.drop (N * 3840)) hne hplt
    refine ⟨?_, ?_, ?_⟩
    · intro i hi
      by_cases hiN : i = N
      · subst hiN
        show ((readsB ⟨2, d, false⟩ i).read).1.length = FRAME_BYTES
        rw [hN, hpart, hFB]
        rw [List.length_append, List.length_replicate]
        omega
      · have hi2 : readsB ⟨2, d, false⟩ i = ⟨2, d.drop (i * 3840), false⟩ :=
          readsB_data_two d N r hlen i hi
        have hfull : 3840 ≤ (d.drop (i * 3840)).length := by
          rw [List.length_drop]
          omega
        show ((readsB ⟨2, d, false⟩ i).read).1.length = FRAME_BYTES
        rw [hi2, read_full_two _ hfull, hFB]
        rw [List.length_take]
        exact min_eq_left hfull
    · show ((readsB ⟨2, d, false⟩ N).read).1.drop (r / (2 * 2) * 4) =
        List.replicate (FRAME_BYTES - r / (2 * 2) * 4) 0
      rw [h22, hFB, hN, hpart]
      have hr4 : r / 4 * 4 = r := Nat.div_mul_cancel hdvd
      rw [hr4, ← hlr, List.drop_left]
    · intro i hi
      have hN1 : readsB ⟨2, d, false⟩ (N + 1) = ⟨2, [], true⟩ := by
        show ((readsB ⟨2, d, false⟩ N).read).2 = ⟨2, [], true⟩
        rw [hN, hpart]
      have hfix : BytesWavPCMSource.read ⟨2, [], true⟩ = ([], ⟨2, [], true⟩) :=
        read_padded 2 []
      show ((readsB ⟨2, d, false⟩ i).read).1 = []
      have hdecomp : i = (N + 1) + (i - (N + 1)) := by omega
      rw [hdecomp, readsB_add, hN1, read_fixpoint _ hfix, hfix]

theorem outW_frames (w : WavPCMSource) (N r : Nat)
    (hp : w.padded_last = false)
    (hlen : w.data.length = N * FRAME_BYTES + r)
    (hr : 0 < r) (hrlt : r < FRAME_BYTES) (hdvd : 4 ∣ r) :
    (∀ i, i ≤ N → (outW w i).length = FRAME_BYTES) ∧
    (outW w N).drop r = List.replicate (FRAME_BYTES - r) 0 ∧
    (∀ i, N < i → outW w i = []) := by
  obtain ⟨d, p⟩ := w
  dsimp only at hp hlen ⊢
  subst hp
  have hbridge : ∀ i, outW ⟨d, false⟩ i = outB ⟨2, d, false⟩ i := by
    intro i
    exact (readsW_toB ⟨d, false⟩ i).2
  have hB := outB_frames ⟨2, d, false⟩ N r (Or.inr rfl) rfl hlen hr hrlt hdvd
  have hr4 : r / (2 * 2) * 4 = r := Nat.div_mul_cancel hdvd
  refine ⟨?_, ?_, ?_⟩
  · intro i hi
    rw [hbridge i]
    exact hB.1 i hi
  · rw [hbridge N]
    have := hB.2.1
    rw [hr4] at this
    exact this
  · intro i hi
    rw [hbridge i]
    exact hB.2.2 i hi

theorem outB_end_absorbing (s : BytesWavPCMSource)
    (hch : s.channels = 1 ∨ s.channels = 2) :
    ∀ i, outB s i = [] → ∀ j, outB s (i + j) = [] := by
  intro i h j
  have hch2 : (readsB s i).channels = 1 ∨ (readsB s i).channels = 2 := by
    rw [readsB_channels s i]
    exact hch
  have hfix : ((readsB s i).read).2.read = ([], ((readsB s i).read).2) :=
    read_end_fix _ hch2 h
  cases j with
  | zero => exact h
  | succ j =>
    show ((readsB s (i + (j + 1))).read).1 = []
    have hdecomp : i + (j + 1) = (i + 1) + j := by omega
    rw [hdecomp, readsB_add]
    have hs1 : readsB s (i + 1) = ((readsB s i).read).2 := rfl
    rw [hs1, read_fixpoint _ hfix, hfix]

theorem outW_end_absorbing (w : WavPCMSource) :
    ∀ i, outW w i = [] → ∀ j, outW w (i + j) = [] := by
  intro i h j
  have hB : outB (toB w) i = [] := by
    rw [← (readsW_toB w i).2]
    exact h
  have hch : (toB w).channels = 1 ∨ (toB w).channels = 2 := Or.inr rfl
  rw [(readsW_toB w (i + j)).2]
  exact outB_end_absorbing (toB w) hch i hB j

theorem play_cleaned (s : TtsState) :
    (guild_tts_manager.play s).cleaned = s.cleaned := by
  unfold guild_tts_manager.play
  by_cases hc : s.connected
  · simp only [hc, not_true_eq_false, if_false]
    cases s.queue with
    | nil => rfl
    | cons a t =>
      by_cases hp : s.playing.isSome ∨ s.paused
      · simp [hp]
      · simp [hp]
  · simp [hc]

theorem save_debounced_mapping (s : VoiceStore) :
    (save_voice_mapping_debounced s).mapping = s.mapping := by
  unfold save_voice_mapping_debounced
  split <;> rfl

theorem save_debounced_pending (s : VoiceStore) :
    (save_voice_mapping_debounced s).save_pending = true := by
  unfold save_voice_mapping_debounced
  by_cases h : s.save_pending
  · simp [h]
  · simp [h]

theorem lookup_setUser (m : List (Nat × VoiceRecord)) (uid : Nat) (r : VoiceRecord) :
    List.lookup uid (setUser m uid r) = some r := by
  induction m with
  | nil => simp [setUser, List.lookup]
  | cons p rest ih =>
    obtain ⟨k, v⟩ := p
    by_cases h : k = uid
    · subst h
      simp [setUser, List.lookup]
    · have hne : (uid == k) = false := by
        simp only [beq_eq_false_iff_ne, ne_eq]
        exact Ne.symm h
      simp [setUser, h, List.lookup, hne, ih]

/-- C6: the reconnect backoff delay is `min(2^step, 30)` seconds, the stored
step is incremented and capped at 5, and starting from step 0 seven
consecutive attempts use exactly the delays 1, 2, 4, 8, 16, 30, 30. -/
theorem restart_backoff_delays :
    delaySeq 0 7 = [1, 2, 4, 8, 16, 30, 30] ∧
    (∀ step, (restart_voice_backoff step).1 = min (2 ^ step) 30) ∧
    (∀ step, (restart_voice_backoff step).2 ≤ 5) := by
  refine ⟨by decide, fun step => by simp [restart_voice_backoff], fun step => ?_⟩
  exact Nat.min_le_right _ _

/-- C9: reading a legacy bare-integer record returns that integer as the
user's voice id, replaces the record in place by the structured
`{voice_id, display_name}` form, and leaves a persistence write pending. -/
theorem legacy_record_upgrade (st : VoiceStore) (uid n randVoice : Nat) (dn : String)
    (h : List.lookup uid st.mapping = some (VoiceRecord.legacy n)) :
    (get_voice_for_user st uid dn randVoice).1 = n ∧
    List.lookup uid (get_voice_for_user st uid dn randVoice).2.mapping =
      some (VoiceRecord.structured n dn) ∧
    (get_voice_for_user st uid dn randVoice).2.save_pending = true := by
  unfold get_voice_for_user
  rw [h]
  refine ⟨rfl, ?_, save_debounced_pending _⟩
  rw [save_debounced_mapping]
  exact lookup_setUser st.mapping uid (VoiceRecord.structured n dn)

/-- Witness for C9 at a concrete store holding a legacy record for user 7. -/
theorem legacy_record_upgrade_witness :
    (get_voice_for_user ⟨[(7, VoiceRecord.legacy 42)], false⟩ 7 "Ann" 888753760).1 = 42 ∧
    List.lookup 7
        (get_voice_for_user ⟨[(7, VoiceRecord.legacy 42)], false⟩ 7 "Ann" 888753760).2.mapping =
      some (VoiceRecord.structured 42 "Ann") ∧
    (get_voice_for_user ⟨[(7, VoiceRecord.legacy 42)], false⟩ 7 "Ann" 888753760).2.save_pending =
      true :=
  legacy_record_upgrade ⟨[(7, VoiceRecord.legacy 42)], false⟩ 7 42 888753760 "Ann" (by decide)

/-- C3 counterexample: with the transport disconnected, `enqueue` returns
before touching the queue, so the item is not appended (and playback does not
start), contradicting the claim that every `enqueue` call appends the item. -/
theorem enqueue_disconnected_drops :
    (TtsState.step ⟨false, false, none, [], 0, []⟩
        (TtsEv.enqueue ⟨1, some "a.wav", true⟩)).queue = [] ∧
    (TtsState.step ⟨false, false, none, [], 0, []⟩
        (TtsEv.enqueue ⟨1, some "a.wav", true⟩)).playing = none ∧
    ([] : List AudioEntry) ≠ [⟨1, some "a.wav", true⟩] := by
  refine ⟨by decide, by decide, by decide⟩

/-- C3 amended: when the transport is connected, `enqueue` appends the item
to the guild's queue; if additionally nothing is playing and playback is not
paused, playback immediately starts with the head of the newly extended
queue, and otherwise the item waits in the queue.  When the transport is
missing or disconnected, `enqueue` does nothing. -/
theorem enqueue_appends_and_starts (s : TtsState) (item : AudioEntry)
    (hc : s.connected = true) :
    (s.playing = none ∧ s.paused = false →
      (s.step (TtsEv.enqueue item)).playing = (s.queue ++ [item]).head? ∧
      (s.step (TtsEv.enqueue item)).queue = (s.queue ++ [item]).tail) ∧
    (s.playing.isSome = true ∨ s.paused = true →
      (s.step (TtsEv.enqueue item)).queue = s.queue ++ [item] ∧
      (s.step (TtsEv.enqueue item)).playing = s.playing) := by
  constructor
  · rintro ⟨h1, h2⟩
    simp only [TtsState.step, guild_tts_manager.enqueue, guild_tts_manager.play,
      hc, h1, h2, not_true_eq_false, if_false, Option.isSome_none,
      Bool.false_eq_true, not_false_eq_true, and_self, if_true]
    cases s.queue with
    | nil => simp
    | cons a t => simp
  · intro h
    have hcond : ¬ ((¬ s.playing.isSome) ∧ (¬ s.paused)) := by
      rcases h with h | h
      · intro hh
        exact hh.1 (by simp [h])
      · intro hh
        exact hh.2 (by simp [h])
    simp only [TtsState.step, guild_tts_manager.enqueue, hc, not_true_eq_false,
      if_false]
    rw [if_neg hcond]
    exact ⟨rfl, rfl⟩

/-- Witness for C3 amended at a concrete idle connected state. -/
theorem enqueue_appends_and_starts_witness :
    ((TtsState.mk true false none [] 0 []).playing = none ∧
        (TtsState.mk true false none [] 0 []).paused = false →
      ((TtsState.mk true false none [] 0 []).step
          (TtsEv.enqueue (AudioEntry.mk 1 none false))).playing =
        (((TtsState.mk true false none [] 0 []).queue ++
            [AudioEntry.mk 1 none false]).head?) ∧
      ((TtsState.mk true false none [] 0 []).step
          (TtsEv.enqueue (AudioEntry.mk 1 none false))).queue =
        (((TtsState.mk true false none [] 0 []).queue ++
            [AudioEntry.mk 1 none false]).tail)) ∧
    ((TtsState.mk true false none [] 0 []).playing.isSome = true ∨
        (TtsState.mk true false none [] 0 []).paused = true →
      ((TtsState.mk true false none [] 0 []).step
          (TtsEv.enqueue (AudioEntry.mk 1 none false))).queue =
        (TtsState.mk true false none [] 0 []).queue ++ [AudioEntry.mk 1 none false] ∧
      ((TtsState.mk true false none [] 0 []).step
          (TtsEv.enqueue (AudioEntry.mk 1 none false))).playing =
        (TtsState.mk true false none [] 0 []).playing) :=
  enqueue_appends_and_starts (TtsState.mk true false none [] 0 [])
    (AudioEntry.mk 1 none false) rfl

/-- C2 counterexample: entry 2 (a temp file with `delete_after_play` set) is
waiting in the queue when the transport disconnects; the completion callback
of entry 1 cleans entry 1 up and then discards the queue, so entry 2 leaves
the system through the queue-discard exit path with its cleanup never run
(its count in the cleanup log is 0, not 1). -/
theorem cleanup_skipped_on_discard :
    (TtsState.run ttsInit
        [TtsEv.enqueue ⟨1, some "a.wav", true⟩, TtsEv.enqueue ⟨2, some "b.wav", true⟩,
         TtsEv.disconnect, TtsEv.complete false]).cleaned.count 2 = 0 ∧
    (TtsState.run ttsInit
        [TtsEv.enqueue ⟨1, some "a.wav", true⟩, TtsEv.enqueue ⟨2, some "b.wav", true⟩,
         TtsEv.disconnect, TtsEv.complete false]).queue = [] ∧
    (TtsState.run ttsInit
        [TtsEv.enqueue ⟨1, some "a.wav", true⟩, TtsEv.enqueue ⟨2, some "b.wav", true⟩,
         TtsEv.disconnect, TtsEv.complete false]).playing = none ∧
    (TtsState.run ttsInit
        [TtsEv.enqueue ⟨1, some "a.wav", true⟩, TtsEv.enqueue ⟨2, some "b.wav", true⟩,
         TtsEv.disconnect, TtsEv.complete false]).cleaned = [1] := by
  refine ⟨by decide, by decide, by decide, by decide⟩

/-- C2 amended: the cleanup action of the entry being played runs exactly
once, at the moment its completion callback fires, identically on the
playback-success and transport-error paths; no other transition of the
pipeline ever runs a cleanup action, so entries discarded from the queue
while the transport is disconnected are dropped without cleanup. -/
theorem cleanup_once_at_completion :
    (∀ (s : TtsState) (item : AudioEntry) (err : Bool),
        s.playing = some item → item.delete_after_play = true →
        item.file_path.isSome = true →
        (s.step (TtsEv.complete err)).cleaned = s.cleaned ++ [item.id]) ∧
    (∀ (s : TtsState) (err : Bool), s.playing = none →
        (s.step (TtsEv.complete err)).cleaned = s.cleaned) ∧
    (∀ (s : TtsState) (item : AudioEntry),
        (s.step (TtsEv.enqueue item)).cleaned = s.cleaned) ∧
    (∀ s : TtsState, (s.step TtsEv.disconnect).cleaned = s.cleaned) ∧
    (∀ s : TtsState, (s.step TtsEv.connect).cleaned = s.cleaned) ∧
    (∀ s : TtsState, (s.step TtsEv.pause).cleaned = s.cleaned) ∧
    (∀ s : TtsState, (s.step TtsEv.resume).cleaned = s.cleaned) ∧
    (∀ s : TtsState, (s.step TtsEv.runScheduled).cleaned = s.cleaned) := by
  refine ⟨?_, ?_, ?_, fun s => rfl, fun s => rfl, fun s => rfl, fun s => rfl, ?_⟩
  · intro s item err hp hd hf
    simp only [TtsState.step, guild_tts_manager.after_playing, hp]
    simp only [hd, hf, and_self, if_true, true_and]
    split <;> rfl
  · intro s err hp
    simp [TtsState.step, guild_tts_manager.after_playing, hp]
  · intro s item
    simp only [TtsState.step, guild_tts_manager.enqueue]
    split
    · rfl
    · split
      · rw [play_cleaned]
      · rfl
  · intro s
    simp only [TtsState.step]
    cases s.pendingPlay with
    | zero => rfl
    | succ n => exact play_cleaned _

/-- Witness for C2 amended: a concrete completion step cleans up exactly the
playing entry. -/
theorem cleanup_once_at_completion_witness :
    ((TtsState.mk true false (some (AudioEntry.mk 1 (some "a.wav") true)) [] 0 []).step
        (TtsEv.complete false)).cleaned = [] ++ [1] :=
  cleanup_once_at_completion.1
    (TtsState.mk true false (some (AudioEntry.mk 1 (some "a.wav") true)) [] 0 [])
    (AudioEntry.mk 1 (some "a.wav") true) false rfl rfl rfl

/-- C4: in the synthesis race, with every earlier-completing request failed
or invalid, the first valid completion (48 kHz, 16-bit, 1 or 2 channels,
non-empty bytes) is returned as the winner, whatever the results of the
requests that would complete later: the loop breaks at the winner and the
`finally` block cancels the rest without awaiting them, so a losing request
completing after cancellation is never surfaced or retained. -/
theorem race_first_valid_wins (pre post : List SynthOutcome) (v : SynthOutcome)
    (hpre : ∀ o ∈ pre, generate_wav_bytes_from_server o = none)
    (hf : v.failed = false) (hsr : v.sr = 48000) (hsw : v.sw = 2)
    (hch : v.ch = 1 ∨ v.ch = 2) (hb : v.bytes ≠ []) :
    generate_wav_bytes (pre ++ v :: post) false = some v.bytes := by
  have hv : generate_wav_bytes_from_server v = some v.bytes := by
    unfold generate_wav_bytes_from_server
    rcases hch with h | h <;> simp [hf, hsr, hsw, h]
  unfold generate_wav_bytes
  simp only [Bool.false_eq_true, if_false]
  induction pre with
  | nil =>
    simp only [List.nil_append, List.map_cons, hv, raceLoop]
    simp [hb]
  | cons o rest ih =>
    have ho : generate_wav_bytes_from_server o = none :=
      hpre o (List.mem_cons_self o rest)
    simp only [List.cons_append, List.map_cons, ho, raceLoop]
    exact ih (fun x hx => hpre x (List.mem_cons_of_mem o hx))

/-- Witness for C4: one failed earlier completion, a valid winner, one
later (cancelled) completion that is never surfaced. -/
theorem race_first_valid_wins_witness :
    generate_wav_bytes
        ([SynthOutcome.mk true 0 0 0 []] ++
          SynthOutcome.mk false 48000 2 2 [1, 2] :: [SynthOutcome.mk false 48000 1 2 [9]])
        false =
      some [1, 2] :=
  race_first_valid_wins [SynthOutcome.mk true 0 0 0 []] [SynthOutcome.mk false 48000 1 2 [9]]
    (SynthOutcome.mk false 48000 2 2 [1, 2]) (by decide) rfl rfl rfl (Or.inr rfl) (by decide)

/-- C5 counterexample: the race over two backends that both fail returns
`none`, and the race whose overall timeout fires before any completion also
returns `none` — the same value, so the AllFailed and Timeout outcomes are
not distinguishable in the return value, contradicting the claimed distinct
`Timeout` and `AllFailed` results. -/
theorem timeout_allfailed_same_value :
    generate_wav_bytes [SynthOutcome.mk true 0 0 0 [], SynthOutcome.mk true 0 0 0 []] false =
      none ∧
    generate_wav_bytes [] true = none ∧
    generate_wav_bytes [SynthOutcome.mk true 0 0 0 [], SynthOutcome.mk true 0 0 0 []] false =
      generate_wav_bytes [] true := by
  refine ⟨by decide, by decide, by decide⟩

/-- C5 amended: the race returns the single failure value `none` both when
the overall timeout elapses before any valid result and when every backend
errors or returns invalid data; the caller cannot distinguish the two
failure outcomes from the return value. -/
theorem race_failures_return_none (completions : List SynthOutcome) (timedOut : Bool)
    (h : ∀ o ∈ completions, generate_wav_bytes_from_server o = none) :
    generate_wav_bytes completions timedOut = none := by
  unfold generate_wav_bytes
  split
  · rfl
  · induction completions with
    | nil => rfl
    | cons o rest ih =>
      have ho : generate_wav_bytes_from_server o = none :=
        h o (List.mem_cons_self o rest)
      simp only [List.map_cons, ho, raceLoop]
      exact ih (fun x hx => h x (List.mem_cons_of_mem o hx))

/-- Witness for C5 amended: all-failed backends with and without the overall
timeout both yield `none`. -/
theorem race_failures_return_none_witness :
    generate_wav_bytes [SynthOutcome.mk true 48000 2 2 [], SynthOutcome.mk false 44100 2 2 [3]]
        false =
      none :=
  race_failures_return_none
    [SynthOutcome.mk true 48000 2 2 [], SynthOutcome.mk false 44100 2 2 [3]] false (by decide)

/-- C7 counterexample: reconnect attempts at t = 0, 100 and 130 seconds.
The failed attempt at t = 100 lies inside the 120 s window opened at t = 0,
so per the claim the reset must be prevented and the attempt at t = 130
should use the escalated delay 2^2 = 4; but the cooldown task spawned at
t = 0 fires at t = 120 regardless and resets the step, so the code uses
delay 1. -/
theorem backoff_reset_not_prevented :
    runAttempts backoffInit [0, 100, 130] = [1, 2, 1] ∧ (1 : Nat) ≠ 4 := by
  refine ⟨by decide, by decide⟩

/-- C7 amended: every reconnect attempt unconditionally schedules a cooldown
task that resets the backoff step to 0 at 120 s after that attempt; a
subsequent failed attempt does not cancel pending cooldowns, so whenever any
scheduled cooldown has come due the step is reset to 0 regardless of
intervening failures, and an attempt made at such a moment uses delay 1
rather than the escalated delay. -/
theorem backoff_reset_unconditional :
    (∀ (t : Nat) (s : BackoffSt),
        ((attemptStep t s).2).cooldowns = (fireDue t s).cooldowns ++ [t + 120]) ∧
    (∀ (now : Nat) (s : BackoffSt), (∃ c ∈ s.cooldowns, c ≤ now) →
        (fireDue now s).step = 0) ∧
    (∀ (t : Nat) (s : BackoffSt), (∃ c ∈ s.cooldowns, c ≤ t) →
        (attemptStep t s).1 = 1) := by
  have hfire : ∀ (now : Nat) (s : BackoffSt), (∃ c ∈ s.cooldowns, c ≤ now) →
      (fireDue now s).step = 0 := by
    intro now s h
    unfold fireDue
    have : s.cooldowns.any (fun c => decide (c ≤ now)) = true := by
      rw [List.any_eq_true]
      obtain ⟨c, hc, hle⟩ := h
      exact ⟨c, hc, by simpa using hle⟩
    simp [this]
  refine ⟨fun t s => rfl, hfire, ?_⟩
  intro t s h
  have hfst : (attemptStep t s).1 = (restart_voice_backoff (fireDue t s).step).1 := rfl
  rw [hfst, hfire t s h]
  rfl

/-- Witness for C7 amended: an attempt at t = 130 with stored step 3 and a
cooldown pending from t = 10 uses delay 1, not 8. -/
theorem backoff_reset_unconditional_witness :
    (attemptStep 130 (BackoffSt.mk 3 [130])).1 = 1 :=
  backoff_reset_unconditional.2.2 130 (BackoffSt.mk 3 [130])
    ⟨130, by decide, by decide⟩

/-- C1: a validated WAV source whose PCM data holds `N` full frames plus a
non-empty partial remainder `r` (a whole number of wave frames, hence
`2 * channels ∣ r`) yields on successive `read` calls exactly `N + 1`
non-empty frames, every one of the fixed `FRAME_BYTES` size, the last one
zero-padded — its output beyond the bytes produced from the remainder is all
zeros — and every call after the `(N+1)`-st returns the empty END marker.
Stated for `BytesWavPCMSource` (mono or stereo) and for the stereo-only
`WavPCMSource`. -/
theorem frame_source_frames :
    (∀ (s : BytesWavPCMSource) (N r : Nat),
        (s.channels = 1 ∨ s.channels = 2) → s.padded_last = false →
        s.data.length = N * (FRAME_SAMPLES * s.channels * BYTES_PER_SAMPLE) + r →
        0 < r → r < FRAME_SAMPLES * s.channels * BYTES_PER_SAMPLE →
        2 * s.channels ∣ r →
        ((∀ i, i ≤ N → (outB s i).length = FRAME_BYTES) ∧
         (outB s N).drop (r / (2 * s.channels) * 4) =
           List.replicate (FRAME_BYTES - r / (2 * s.channels) * 4) 0 ∧
         (∀ i, N < i → outB s i = []))) ∧
    (∀ (w : WavPCMSource) (N r : Nat),
        w.padded_last = false →
        w.data.length = N * FRAME_BYTES + r →
        0 < r → r < FRAME_BYTES → 4 ∣ r →
        ((∀ i, i ≤ N → (outW w i).length = FRAME_BYTES) ∧
         (outW w N).drop r = List.replicate (FRAME_BYTES - r) 0 ∧
         (∀ i, N < i → outW w i = []))) :=
  ⟨fun s N r hch hp hlen hr hrlt hdvd => outB_frames s N r hch hp hlen hr hrlt hdvd,
   fun w N r hp hlen hr hrlt hdvd => outW_frames w N r hp hlen hr hrlt hdvd⟩

/-- Witness for C1: a stereo byte source and a file source holding zero full
frames plus a 4-byte remainder (one wave frame). -/
theorem frame_source_frames_witness :
    ((∀ i, i ≤ 0 → (outB ⟨2, [1, 2, 3, 4], false⟩ i).length = FRAME_BYTES) ∧
     (outB ⟨2, [1, 2, 3, 4], false⟩ 0).drop (4 / (2 * 2) * 4) =
       List.replicate (FRAME_BYTES - 4 / (2 * 2) * 4) 0 ∧
     (∀ i, 0 < i → outB ⟨2, [1, 2, 3, 4], false⟩ i = [])) ∧
    ((∀ i, i ≤ 0 → (outW ⟨[1, 2, 3, 4], false⟩ i).length = FRAME_BYTES) ∧
     (outW ⟨[1, 2, 3, 4], false⟩ 0).drop 4 = List.replicate (FRAME_BYTES - 4) 0 ∧
     (∀ i, 0 < i → outW ⟨[1, 2, 3, 4], false⟩ i = [])) :=
  ⟨frame_source_frames.1 ⟨2, [1, 2, 3, 4], false⟩ 0 4 (Or.inr rfl) rfl (by decide)
      (by decide) (by decide) (by decide),
   frame_source_frames.2 ⟨[1, 2, 3, 4], false⟩ 0 4 rfl (by decide) (by decide)
      (by decide) (by decide)⟩

/-- C8: for a mono source holding at least one full input frame, the upmixed
stereo output frame byte-interleaves the input with itself: for every sample
index `i` below `FRAME_SAMPLES`, output bytes `4i` and `4i+1` equal output
bytes `4i+2` and `4i+3` and both equal input bytes `2i` and `2i+1`. -/
theorem mono_upmix_interleaves (s : BytesWavPCMSource)
    (hch : s.channels = 1) (hp : s.padded_last = false)
    (hlen : FRAME_SAMPLES * BYTES_PER_SAMPLE ≤ s.data.length) :
    ∀ i, i < FRAME_SAMPLES →
      ((s.read).1.getD (4 * i) 0 = s.data.getD (2 * i) 0 ∧
       (s.read).1.getD (4 * i + 1) 0 = s.data.getD (2 * i + 1) 0 ∧
       (s.read).1.getD (4 * i + 2) 0 = s.data.getD (2 * i) 0 ∧
       (s.read).1.getD (4 * i + 3) 0 = s.data.getD (2 * i + 1) 0) := by
  obtain ⟨ch, d, p⟩ := s
  dsimp only at hch hp hlen ⊢
  subst hch
  subst hp
  have hfs : FRAME_SAMPLES * BYTES_PER_SAMPLE = 1920 := rfl
  rw [hfs] at hlen
  intro i hi
  have hFS : FRAME_SAMPLES = 960 := rfl
  rw [hFS] at hi
  rw [read_full_one d hlen]
  have htl : (d.take 1920).length = 1920 := by
    rw [List.length_take]
    exact min_eq_left hlen
  obtain ⟨g0, g1, g2, g3⟩ := upmix_getD i (d.take 1920) (by omega)
  rw [getD_take d 1920 (2 * i) (by omega)] at g0 g2
  rw [getD_take d 1920 (2 * i + 1) (by omega)] at g1 g3
  exact ⟨g0, g1, g2, g3⟩

/-- Witness for C8: a mono source holding a full frame of the byte 7, at
sample index 5. -/
theorem mono_upmix_interleaves_witness :
    ((BytesWavPCMSource.mk 1 (List.replicate 1920 7) false).read).1.getD (4 * 5) 0 =
      (List.replicate 1920 7).getD (2 * 5) 0 ∧
    ((BytesWavPCMSource.mk 1 (List.replicate 1920 7) false).read).1.getD (4 * 5 + 1) 0 =
      (List.replicate 1920 7).getD (2 * 5 + 1) 0 ∧
    ((BytesWavPCMSource.mk 1 (List.replicate 1920 7) false).read).1.getD (4 * 5 + 2) 0 =
      (List.replicate 1920 7).getD (2 * 5) 0 ∧
    ((BytesWavPCMSource.mk 1 (List.replicate 1920 7) false).read).1.getD (4 * 5 + 3) 0 =
      (List.replicate 1920 7).getD (2 * 5 + 1) 0 :=
  mono_upmix_interleaves (BytesWavPCMSource.mk 1 (List.replicate 1920 7) false) rfl rfl
    (by rw [List.length_replicate]; decide) 5 (by decide)

/-- C10: once a `read` call has returned the empty END marker, every later
`read` on the same source also returns the empty marker — END is absorbing,
whether it was reached through a zero-padded partial last frame or through
the input ending exactly on a frame boundary.  Stated for both
`BytesWavPCMSource` and `WavPCMSource`. -/
theorem end_marker_absorbing :
    (∀ (s : BytesWavPCMSource), (s.channels = 1 ∨ s.channels = 2) →
        ∀ i, outB s i = [] → ∀ j, outB s (i + j) = []) ∧
    (∀ (w : WavPCMSource), ∀ i, outW w i = [] → ∀ j, outW w (i + j) = []) :=
  ⟨fun s hch i h j => outB_end_absorbing s hch i h j,
   fun w i h j => outW_end_absorbing w i h j⟩

/-- Witness for C10: sources with no PCM data report END from the first call
on, forever. -/
theorem end_marker_absorbing_witness :
    (∀ j, outB ⟨2, [], false⟩ (0 + j) = []) ∧
    (∀ j, outW ⟨[], false⟩ (0 + j) = []) :=
  ⟨end_marker_absorbing.1 ⟨2, [], false⟩ (Or.inr rfl) 0 rfl,
   end_marker_absorbing.2 ⟨[], false⟩ 0 rfl⟩

